import Mathlib

/-!
Verification of the PulseTrader data pipeline (Rust sources under
`src/rust/src/`): the TDX daily-bar binary decoder and validator
(`parsers/tdx_day.rs`, `parsers/utils.rs`), the rule-driven data cleaner
(`processors/cleaner.rs`), the technical-indicator engine
(`processors/calculator.rs`) and the rule-driven aggregator
(`processors/aggregator.rs`).

Modelling conventions, used throughout:

* Rust `f64` values are modelled as exact rationals (`ℚ`).  Every claim
  settled here is either purely structural (ordering, lengths, presence or
  absence of values, which branch was taken) or concerns price values that
  the decoder produces as `u32 cents / 100.0`; for those the conversion
  `u32 → f64 / 100.0` is exact in ordering terms (see the comment on
  `TDX.TDXDayRecord`), so the rational model and the floating-point code
  agree on every comparison the code performs.
* `chrono::NaiveDate` is modelled as a natural number.  For the decoder the
  number is the `YYYYMMDD` integer read from disk; for two valid calendar
  dates with four-digit years the numeric order of the `YYYYMMDD` integers
  coincides with `NaiveDate`'s calendar order, so sorting claims transfer.
* Rust `HashMap` iteration order is unspecified.  Functions that iterate a
  `HashMap<String, _>` of per-symbol groups therefore take the iteration
  order as an explicit parameter `syms : List String`; `IsSymbolOrder`
  states that the parameter is a plausible iteration order (exactly the
  distinct symbols of the input, each once, in some order).
* Fallible Rust functions returning `anyhow::Result` are modelled with
  `Except`, with the error message mapped to the spec's error taxonomy.
-/

/-! ## Definitions -/

/-! ### Shared string utilities

Rust compares `String`s lexicographically; we model that on the character
list (identical to byte order for the ASCII data handled here). -/

/-- Lexicographic `≤` on character lists: the model of Rust's `str`
ordering (`Ord for str`). -/
def charListLe : List Char → List Char → Bool
  | [], _ => true
  | _ :: _, [] => false
  | a :: as, b :: bs =>
    if a < b then true
    else if b < a then false
    else charListLe as bs

/-- Lexicographic `≤` on strings, the model of Rust's `str::cmp`. -/
def strLe (a b : String) : Bool :=
  charListLe a.data b.data

/-- Character-wise lowercasing; for the ASCII market segments searched for
here this coincides with Rust's `str::to_lowercase`. -/
def strToLower (s : String) : String :=
  ⟨s.data.map Char.toLower⟩

/-- `startsWithB pat s`: `pat` is a leading segment of `s`
(model of `str::starts_with` over char lists). -/
def startsWithB : List Char → List Char → Bool
  | [], _ => true
  | _ :: _, [] => false
  | a :: as, b :: bs => a == b && startsWithB as bs

/-- `containsSeg s pat`: `pat` occurs contiguously in `s`
(model of Rust's `str::contains` with a literal pattern). -/
def containsSeg : List Char → List Char → Bool
  | [], pat => startsWithB pat []
  | s@(_ :: rest), pat => startsWithB pat s || containsSeg rest pat

/-- Model of `str::contains` on strings. -/
def strContains (s pat : String) : Bool :=
  containsSeg s.data pat.data

/-! ### Generic list helpers shared by decoder and aggregator -/

/-- Split a list into consecutive chunks of `w` elements, the last chunk
possibly shorter — the model of Rust's `slice::chunks` (which panics on
`w = 0`; here `w = 0` returns `[]` and every theorem assumes `0 < w`). -/
def listChunksF (w : Nat) : Nat → List α → List (List α)
  | _, [] => []
  | 0, _ :: _ => []
  | fuel + 1, a :: rest =>
    (a :: rest).take w :: listChunksF w fuel ((a :: rest).drop w)

/-- Split a list into consecutive chunks of `w` elements, the last chunk
possibly shorter — the model of Rust's `slice::chunks` (which panics on
`w = 0`; here `w = 0` is harmless and every theorem assumes `0 < w`).
Structured with a fuel argument (`l.length` steps always suffice since a
step consumes at least one element) so that it is structurally recursive. -/
def listChunks (w : Nat) (l : List α) : List (List α) :=
  listChunksF w l.length l

/-- Insert `x` into `acc` after every element `y` with `le y x`: the
insertion step of the stable sort below. -/
def insertB (le : α → α → Bool) (x : α) : List α → List α
  | [] => [x]
  | y :: ys => if le y x then y :: insertB le x ys else x :: y :: ys

/-- Stable sort by a boolean comparison: the model of Rust's
`slice::sort_by` (a stable sort; elements are processed in input order and
each is placed after earlier elements that compare `≤` to it, so ties keep
their input order).  Implemented as structural insertion sort so that the
kernel can evaluate it on concrete inputs. -/
def sortByB (le : α → α → Bool) (l : List α) : List α :=
  l.foldl (fun acc x => insertB le x acc) []

/-- Sequential, first-error-aborting traversal: the model of the Rust
pattern `for x in xs { out.push(f(x)?) }`. -/
def exceptMapM (f : α → Except ε β) : List α → Except ε (List β)
  | [] => .ok []
  | a :: as =>
    match f a with
    | .error e => .error e
    | .ok b =>
      match exceptMapM f as with
      | .error e => .error e
      | .ok bs => .ok (b :: bs)

/-- Stand-in for `f64::sqrt` (used by the standard-deviation computations):
`Rat.sqrt`.  No claim observes this value. -/
def sqrtF (q : ℚ) : ℚ := Rat.sqrt q

/-! ### Decoder and symbol/market derivation (`parsers/tdx_day.rs`,
`parsers/utils.rs`) -/

namespace TDX

/-- The spec's error taxonomy for the decoder-side functions; the Rust code
returns `anyhow` errors whose messages correspond to these cases. -/
inductive ParseError where
  | invalidLength
  | invalidDate
  | invalidPrice
  | invalidSymbol
  | unknownMarket
  deriving DecidableEq, Repr

/-- `TDXDayParser::extract_symbol_market` (tdx_day.rs:200-221).  The Rust
function receives a `&Path`; `stem` is the result of `file_stem()` (the
final path component with its extension stripped) and `path` the full path
rendered as a string, which the function lowercases and searches for a
market segment.  `file_stem()` returning `None` is a separate error not
reachable for the inputs quantified here.  Note the function checks only
the *byte length* of the stem (`file_name.len() != 6`); it never checks
that the characters are digits. -/
def extract_symbol_market (stem : String) (path : String) :
    Except ParseError (String × String) :=
  if stem.utf8ByteSize ≠ 6 then .error .invalidSymbol
  else
    let p := strToLower path
    if strContains p "/sh/" || strContains p "\\sh\\" then .ok (stem, "SH")
    else if strContains p "/sz/" || strContains p "\\sz\\" then .ok (stem, "SZ")
    else .error .unknownMarket

/-- `chars().all(|c| c.is_ascii_digit())`: every character is an ASCII
digit (`Char.isDigit` is exactly `char::is_ascii_digit`). -/
def isDigits (l : List Char) : Bool :=
  l.all Char.isDigit

/-- `ValidationUtils::validate_symbol` (utils.rs:195-205): byte length 6 and
all characters ASCII digits. -/
def validate_symbol (symbol : String) : Except ParseError Unit :=
  if symbol.utf8ByteSize ≠ 6 then .error .invalidSymbol
  else if ¬ (isDigits symbol.data) then .error .invalidSymbol
  else .ok ()

/-- One decoded daily bar (`TDXDayRecord`, tdx_day.rs:13-32).  The Rust
struct stores prices as `f64` yuan obtained as `u32 / 100.0`; we keep the
exact integer cent values (`openC` is the on-disk `open` field, etc.).
The map `c ↦ (c : f64) / 100.0` is exact on `u32` inputs up to rounding
that is far smaller than the 1-cent spacing, so every comparison the Rust
code performs on the `f64` values agrees with the comparison of the cent
integers (see `validate_prices_cents_eq`).  `amountBits` carries the raw
32 bits of the IEEE-754 `f32` `amount` field, whose numeric value no claim
depends on; `date` is the `YYYYMMDD` integer (calendar order of valid
dates equals numeric order). -/
structure TDXDayRecord where
  date : Nat
  symbol : String
  openC : Nat
  highC : Nat
  lowC : Nat
  closeC : Nat
  volume : Nat
  amountBits : Nat
  market : String
  deriving DecidableEq, Repr

/-- The `f64` yuan value of a cent count. -/
def priceQ (c : Nat) : ℚ :=
  (c : ℚ) / 100

/-- `TDXDayParser::validate_prices` (tdx_day.rs:175-197), verbatim over the
`f64` prices modelled as rationals: positivity, `high ≥ low`, open/close
inside `[low, high]`, and the band check that tests only `open`/`low`
against `0.01` and `high`/`close` against `10000.0`. -/
def validate_prices (o h l c : ℚ) : Except ParseError Unit :=
  if o ≤ 0 ∨ h ≤ 0 ∨ l ≤ 0 ∨ c ≤ 0 then .error .invalidPrice
  else if h < l then .error .invalidPrice
  else if o > h ∨ o < l ∨ c > h ∨ c < l then .error .invalidPrice
  else if o < 1 / 100 ∨ h > 10000 ∨ l < 1 / 100 ∨ c > 10000 then
    .error .invalidPrice
  else .ok ()

/-- `validate_prices` expressed on the exact cent integers; proven equal to
the rational version at the decoded prices in `validate_prices_cents_eq`. -/
def validate_prices_cents (o h l c : Nat) : Except ParseError Unit :=
  if o = 0 ∨ h = 0 ∨ l = 0 ∨ c = 0 then .error .invalidPrice
  else if h < l then .error .invalidPrice
  else if o > h ∨ o < l ∨ c > h ∨ c < l then .error .invalidPrice
  else if o < 1 ∨ h > 1000000 ∨ l < 1 ∨ c > 1000000 then .error .invalidPrice
  else .ok ()

/-- Little-endian `u32` read at byte offset `off` of a chunk, the model of
the `ptr::read_unaligned` of the `#[repr(C, packed)]` record
(tdx_day.rs:35-51, 110-111): field-by-field this is exactly an LE read at
offsets 0, 4, 8, 12, 16, 20, 24. -/
def readU32 (chunk : List Nat) (off : Nat) : Nat :=
  chunk.getD off 0 + 256 * chunk.getD (off + 1) 0 +
    65536 * chunk.getD (off + 2) 0 + 16777216 * chunk.getD (off + 3) 0

/-- Gregorian leap-year test, as in `chrono`. -/
def isLeapYear (y : Nat) : Bool :=
  y % 4 == 0 && (y % 100 != 0 || y % 400 == 0)

/-- Days in a month, as validated by `chrono::NaiveDate::from_ymd_opt`. -/
def daysInMonth (y m : Nat) : Nat :=
  if m = 2 then (if isLeapYear y then 29 else 28)
  else if m = 4 ∨ m = 6 ∨ m = 9 ∨ m = 11 then 30
  else 31

/-- `TDXDayParser::convert_binary_record` (tdx_day.rs:125-172): the
`YYYYMMDD` integer must print as exactly 8 digits (`10^7 ≤ d < 10^8`) and
split into a valid calendar date; prices are converted from cents and
validated; volume and the raw amount bits are carried over. -/
def convert_binary_record (chunk : List Nat) (symbol market : String) :
    Except ParseError TDXDayRecord :=
  let d := readU32 chunk 0
  if ¬ (10000000 ≤ d ∧ d ≤ 99999999) then .error .invalidDate
  else
    let year := d / 10000
    let month := d / 100 % 100
    let day := d % 100
    if ¬ (1 ≤ month ∧ month ≤ 12 ∧ 1 ≤ day ∧ day ≤ daysInMonth year month)
    then .error .invalidDate
    else
      let o := readU32 chunk 4
      let hi := readU32 chunk 8
      let lo := readU32 chunk 12
      let cl := readU32 chunk 16
      match validate_prices_cents o hi lo cl with
      | .error e => .error e
      | .ok () =>
          .ok { date := d, symbol := symbol, openC := o, highC := hi,
                lowC := lo, closeC := cl, volume := readU32 chunk 24,
                amountBits := readU32 chunk 20, market := market }

/-- Boolean date comparison used for the final sort of
`parse_binary_data` (`records.sort_by(|a, b| a.date.cmp(&b.date))`). -/
def dateLe (a b : TDXDayRecord) : Bool :=
  a.date ≤ b.date

/-- `TDXDayParser::parse_binary_data` (tdx_day.rs:88-122): reject buffers
whose length is not a multiple of 32 (`InvalidLength`); otherwise decode
each 32-byte chunk in order, aborting on the first error, and finally
stable-sort the records ascending by date. -/
def parse_binary_data (buffer : List Nat) (symbol market : String) :
    Except ParseError (List TDXDayRecord) :=
  if buffer.length % 32 ≠ 0 then .error .invalidLength
  else do
    let recs ← exceptMapM (fun c => convert_binary_record c symbol market)
      (listChunks 32 buffer)
    pure (sortByB dateLe recs)

end TDX

/-! ### Processor-side record and the data cleaner
(`processors/cleaner.rs`) -/

namespace Proc

/-- The same Rust `TDXDayRecord`, as seen by the processors: prices and
amount are `f64`, modelled as exact rationals (every processor claim
settled here is structural, so the exact-rational stand-in is faithful);
the date is a `NaiveDate` modelled as a `Nat` (only equality and order are
used).  `openP` is the Rust field `open` (a Lean keyword). -/
structure TDXDayRecord where
  date : Nat
  symbol : String
  openP : ℚ
  high : ℚ
  low : ℚ
  close : ℚ
  volume : Nat
  amount : ℚ
  market : String
  deriving DecidableEq, Repr

end Proc

namespace DataCleaner

open Proc

/-- `DataCleaner::remove_non_trading_days` (cleaner.rs:527-543): keep a
record iff its date is contained in the trading-day set, and count the
dropped ones.  The `HashSet<NaiveDate>` is modelled as the list of its
elements, queried only through `contains`. -/
def remove_non_trading_days (trading_days : List Nat) :
    List TDXDayRecord → List TDXDayRecord × Nat
  | [] => ([], 0)
  | r :: rest =>
    let rec' := remove_non_trading_days trading_days rest
    if trading_days.contains r.date then (r :: rec'.1, rec'.2)
    else (rec'.1, rec'.2 + 1)

/-- The deduplication key of `remove_duplicates`: the Rust code builds the
string `format!("{}_{}", symbol, date.format("%Y-%m-%d"))`.  For the dates
representable here (the formatted date is a fixed-width `YYYY-MM-DD` and
contains no underscore) that string determines and is determined by the
`(symbol, date)` pair, so the key is modelled as the pair itself. -/
def dedupKey (r : TDXDayRecord) : String × Nat :=
  (r.symbol, r.date)

/-- The `keys.is_empty()` branch of `DataCleaner::remove_duplicates`
(cleaner.rs:417-433): scan in input order, keep a record iff its key was
not seen before (`HashSet::insert` returning `true`), count the dropped
ones.  The seen-set is modelled as the list of keys inserted so far. -/
def removeDupSeen (seen : List (String × Nat)) :
    List TDXDayRecord → List TDXDayRecord × Nat
  | [] => ([], 0)
  | r :: rest =>
    if seen.contains (dedupKey r) then
      let u := removeDupSeen seen rest
      (u.1, u.2 + 1)
    else
      let u := removeDupSeen (dedupKey r :: seen) rest
      (r :: u.1, u.2)

/-- `DataCleaner::remove_duplicates` (cleaner.rs:412-438): with an empty
key list (the default), deduplicate by `(symbol, date)` keeping the first
occurrence; with an explicit key list the Rust code is a passthrough
(`// 简化实现`, returns `(data, 0)`). -/
def remove_duplicates (data : List TDXDayRecord) (keys : List String) :
    List TDXDayRecord × Nat :=
  if keys.isEmpty then removeDupSeen [] data
  else (data, 0)

/-- Step 1 of `DataCleaner::validate_price_consistency` on one record
(cleaner.rs:453-457): swap `high` and `low` when `high < low`. -/
def fix_swap (r : TDXDayRecord) : TDXDayRecord :=
  if r.high < r.low then { r with high := r.low, low := r.high } else r

/-- Step 2 (cleaner.rs:459-462): clamp `open` from above. -/
def fix_open_high (r : TDXDayRecord) : TDXDayRecord :=
  if r.openP > r.high then { r with openP := r.high } else r

/-- Step 3 (cleaner.rs:464-467): clamp `open` from below. -/
def fix_open_low (r : TDXDayRecord) : TDXDayRecord :=
  if r.openP < r.low then { r with openP := r.low } else r

/-- Step 4 (cleaner.rs:469-472): clamp `close` from above. -/
def fix_close_high (r : TDXDayRecord) : TDXDayRecord :=
  if r.close > r.high then { r with close := r.high } else r

/-- Step 5 (cleaner.rs:474-477): clamp `close` from below. -/
def fix_close_low (r : TDXDayRecord) : TDXDayRecord :=
  if r.close < r.low then { r with close := r.low } else r

/-- The full per-record repair of `validate_price_consistency`: the five
steps applied in the order of the Rust code. -/
def fix_record (r : TDXDayRecord) : TDXDayRecord :=
  fix_close_low (fix_close_high (fix_open_low (fix_open_high (fix_swap r))))

/-- `needs_fix` for one record: whether any of the five conditions fired,
each evaluated on the record as repaired so far, exactly as the mutating
Rust code does. -/
def fix_flag (r : TDXDayRecord) : Bool :=
  let r1 := fix_swap r
  let r2 := fix_open_high r1
  let r3 := fix_open_low r2
  let r4 := fix_close_high r3
  decide (r.high < r.low) || decide (r1.openP > r1.high) ||
    decide (r2.openP < r2.low) || decide (r3.close > r3.high) ||
    decide (r4.close < r4.low)

/-- `DataCleaner::validate_price_consistency` (cleaner.rs:441-487): repair
every record in order and count the records that needed any repair. -/
def validate_price_consistency (data : List TDXDayRecord) :
    List TDXDayRecord × Nat :=
  (data.map fix_record, data.countP fix_flag)

end DataCleaner

/-! ### Aggregator (`processors/aggregator.rs`) -/

namespace Proc

/-- Boolean date comparison of records — the model of the Rust sort
`sort_by(|a, b| a.date.cmp(&b.date))` used in aggregator and calculator. -/
def dateLe (a b : TDXDayRecord) : Bool :=
  a.date ≤ b.date

/-- A plausible iteration order of a `HashMap<String, Vec<_>>` keyed by
record symbol: exactly the distinct symbols of the input, each once, in
some order. -/
abbrev IsSymbolOrder (syms : List String) (data : List TDXDayRecord) : Prop :=
  syms.Nodup ∧ (∀ s ∈ syms, s ∈ data.map (·.symbol)) ∧
    (∀ s ∈ data.map (·.symbol), s ∈ syms)

end Proc

namespace DataAggregator

open Proc

/-- `AggregationFunction` (aggregator.rs:36-64). -/
inductive AggregationFunction where
  | sum (field : String)
  | mean (field : String)
  | max (field : String)
  | min (field : String)
  | median (field : String)
  | count
  | first (field : String)
  | last (field : String)
  | stdDev (field : String)
  | variance (field : String)
  | weightedMean (value_field : String) (weight_field : String)
  | custom (name : String) (fields : List String)
  deriving DecidableEq, Repr

/-- `DataAggregator::extract_field_value` (aggregator.rs:469-479): the six
numeric fields; any other name is the `UnknownField` error. -/
def extract_field_value (r : TDXDayRecord) (field : String) :
    Except String ℚ :=
  match field with
  | "open" => .ok r.openP
  | "high" => .ok r.high
  | "low" => .ok r.low
  | "close" => .ok r.close
  | "volume" => .ok (r.volume : ℚ)
  | "amount" => .ok r.amount
  | _ => .error "UnknownField"

/-- The exact value of `f64::MAX` (= (2 − 2⁻⁵²)·2¹⁰²³), the fold seed of
the `Min` aggregation. -/
def f64MAX : ℚ := 2 ^ 1024 - 2 ^ 971

/-- The exact value of `f64::MIN`, the fold seed of the `Max`
aggregation. -/
def f64MIN : ℚ := -f64MAX

/-- Stand-in for `(n as f64).log2()` in the `Custom` fallback: the integer
log.  No claim observes this value (the only claim touching `Custom` is
about the empty input, which short-circuits before reaching it); it is
kept total and computable rather than modelling the transcendental. -/
def log2F (n : Nat) : ℚ := (Nat.log2 n : ℚ)


/-- `DataAggregator::apply_aggregation_function` (aggregator.rs:350-466).
The empty-input short-circuit (`return Ok(0.0)`) comes before the match on
the function, so it applies to every variant, including ones naming an
unknown field.  Folds are written left-to-right as the Rust iterators run;
`Median` sorts with the same stable sort model as elsewhere. -/
def apply_aggregation_function (records : List TDXDayRecord)
    (function : AggregationFunction) : Except String ℚ :=
  if records.isEmpty then .ok 0
  else
    match function with
    | .sum field => do
        let values ← exceptMapM (fun r => extract_field_value r field) records
        .ok (values.foldl (· + ·) 0)
    | .mean field => do
        let values ← exceptMapM (fun r => extract_field_value r field) records
        .ok (values.foldl (· + ·) 0 / (values.length : ℚ))
    | .max field => do
        let values ← exceptMapM (fun r => extract_field_value r field) records
        .ok (values.foldl (fun a b => Max.max a b) f64MIN)
    | .min field => do
        let values ← exceptMapM (fun r => extract_field_value r field) records
        .ok (values.foldl (fun a b => Min.min a b) f64MAX)
    | .median field => do
        let values ← exceptMapM (fun r => extract_field_value r field) records
        let sorted := sortByB (fun a b => decide (a ≤ b)) values
        .ok (if sorted.isEmpty then 0 else sorted.getD (sorted.length / 2) 0)
    | .count => .ok (records.length : ℚ)
    | .first field =>
        match records.head? with
        | some r => extract_field_value r field
        | none => .ok 0
    | .last field =>
        match records.getLast? with
        | some r => extract_field_value r field
        | none => .ok 0
    | .stdDev field => do
        let values ← exceptMapM (fun r => extract_field_value r field) records
        let mean := values.foldl (· + ·) 0 / (values.length : ℚ)
        .ok (sqrtF
          ((values.map (fun x => (x - mean) ^ 2)).foldl (· + ·) 0 /
            (values.length : ℚ)))
    | .variance field => do
        let values ← exceptMapM (fun r => extract_field_value r field) records
        let mean := values.foldl (· + ·) 0 / (values.length : ℚ)
        .ok ((values.map (fun x => (x - mean) ^ 2)).foldl (· + ·) 0 /
          (values.length : ℚ))
    | .weightedMean value_field weight_field => do
        let pairs ← exceptMapM (fun r => do
            let v ← extract_field_value r value_field
            let w ← extract_field_value r weight_field
            (.ok (v, w) : Except String (ℚ × ℚ))) records
        let weighted_sum := (pairs.map (fun p => p.1 * p.2)).foldl (· + ·) 0
        let weight_sum := (pairs.map (fun p => p.2)).foldl (· + ·) 0
        .ok (if weight_sum > 0 then weighted_sum / weight_sum else 0)
    | .custom _ _ => .ok (log2F records.length)

/-- One `(key, value, count)` entry of an aggregation result
(`AggregatedValue`, aggregator.rs:85-94).  For the time-window rule the
Rust key is the string `format!("{}_{}", symbol, start_date)`, injective
in the `(symbol, start date)` pair, modelled as that pair; the derived
`metadata` string map is omitted (no claim mentions it). -/
structure AggregatedValue where
  key : String × Nat
  value : ℚ
  count : Option Nat
  deriving DecidableEq, Repr

/-- The date of `window[0]`; total stand-in (`0` for the empty list, which
cannot occur: the caller only passes full, nonempty chunks). -/
def headDate (window : List TDXDayRecord) : Nat :=
  match window with
  | [] => 0
  | r :: _ => r.date

/-- `DataAggregator::aggregate_time_window` (aggregator.rs:167-222),
returning the `values` of the produced summary: group by symbol (in the
`HashMap` iteration order `syms`), sort each group by date, split into
consecutive chunks of `window_size` and emit one value per *full* chunk
(`window.len() == window_size`), applying the aggregation function to the
chunk. -/
def aggregate_time_window (syms : List String)
    (data : List TDXDayRecord) (window_size : Nat)
    (function : AggregationFunction) :
    Except String (List AggregatedValue) := do
  let parts ← exceptMapM (fun s =>
      let group := data.filter (fun r => r.symbol == s)
      let sorted := sortByB dateLe group
      exceptMapM (fun window => do
          let v ← apply_aggregation_function window function
          (.ok { key := (s, headDate window), value := v,
                 count := some window.length } :
            Except String AggregatedValue))
        ((listChunks window_size sorted).filter
          (fun window => window.length == window_size)))
    syms
  .ok parts.flatten

end DataAggregator

/-! ### Indicator engine (`processors/calculator.rs`) -/

namespace IndicatorCalculator

open Proc

/-- `MACD` (calculator.rs:412-420). -/
structure MACD where
  dif : ℚ
  signal : ℚ
  histogram : ℚ
  deriving DecidableEq, Repr

/-- `BollingerBands` (calculator.rs:423-433). -/
structure BollingerBands where
  upper : ℚ
  middle : ℚ
  lower : ℚ
  width : ℚ
  deriving DecidableEq, Repr

/-- `IndicatorValues` (calculator.rs:385-409).  The Rust struct also
carries an `indicators : Vec<TechnicalIndicator>` list that is always the
empty default and never read; it is omitted. -/
structure IndicatorValues where
  ma5 : Option ℚ
  ma10 : Option ℚ
  ma20 : Option ℚ
  ma60 : Option ℚ
  volume_ma5 : Option ℚ
  change_percent : Option ℚ
  amplitude : Option ℚ
  rsi : Option ℚ
  macd : Option MACD
  bollinger : Option BollingerBands
  deriving DecidableEq, Repr

/-- `IndicatorValues::default()`: every indicator absent. -/
def defaultIndicatorValues : IndicatorValues :=
  { ma5 := none, ma10 := none, ma20 := none, ma60 := none,
    volume_ma5 := none, change_percent := none, amplitude := none,
    rsi := none, macd := none, bollinger := none }

/-- `EnhancedDayRecord` (calculator.rs:304-309). -/
structure EnhancedDayRecord where
  base_record : Proc.TDXDayRecord
  indicators : IndicatorValues
  deriving DecidableEq, Repr

/-- `IndicatorCalculator::calculate_ma` (calculator.rs:140-145). -/
def calculate_ma (prices : List ℚ) : ℚ :=
  if prices.isEmpty then 0
  else prices.foldl (· + ·) 0 / (prices.length : ℚ)

/-- `IndicatorCalculator::calculate_rsi` (calculator.rs:148-176): simple
averages of the per-day gains and losses over the window's deltas. -/
def calculate_rsi (closes : List ℚ) : ℚ :=
  if closes.length < 2 then 50
  else
    let deltas := (closes.zip closes.tail).map (fun p => p.2 - p.1)
    let gains := deltas.map (fun d => if d > 0 then d else 0)
    let losses := deltas.map (fun d => if d > 0 then 0 else -d)
    let avg_gain := gains.foldl (· + ·) 0 / (gains.length : ℚ)
    let avg_loss := losses.foldl (· + ·) 0 / (losses.length : ℚ)
    if avg_loss = 0 then 100
    else 100 - (100 / (1 + avg_gain / avg_loss))

/-- `IndicatorCalculator::calculate_ema` (calculator.rs:216-229): seeded
with the first value, then the standard EMA recurrence left to right. -/
def calculate_ema (values : List ℚ) (period : Nat) : ℚ :=
  match values with
  | [] => 0
  | v :: rest =>
    let multiplier : ℚ := 2 / ((period : ℚ) + 1)
    rest.foldl (fun ema value => value * multiplier + ema * (1 - multiplier)) v

/-- One iteration of the signal-line loop of `calculate_macd`
(calculator.rs:191-200): the DIF re-derived on the suffix `closes[i..]`,
produced only when that suffix still holds ≥ 12 (outer guard) and ≥ 26
(inner guard) closes. -/
def difAt (closes : List ℚ) (i : Nat) : Option ℚ :=
  let current := closes.drop i
  if 12 ≤ current.length then
    (if 26 ≤ current.length then
      some (calculate_ema current 12 - calculate_ema current 26)
    else none)
  else none

/-- `IndicatorCalculator::calculate_macd` (calculator.rs:179-213): DIF from
EMA₁₂ and EMA₂₆ of the given window; the signal is a 9-period EMA of the
DIF series re-derived at every suffix of the window that still holds ≥ 26
closes, defaulting to `0` when fewer than 9 such samples exist. -/
def calculate_macd (closes : List ℚ) : Option MACD :=
  if closes.length < 26 then none
  else
    let ema12 := calculate_ema closes 12
    let ema26 := calculate_ema closes 26
    let dif := ema12 - ema26
    let dif_values := (List.range closes.length).filterMap (difAt closes)
    let signal := if 9 ≤ dif_values.length then calculate_ema dif_values 9
      else 0
    some { dif := dif, signal := signal, histogram := dif - signal }

/-- `IndicatorCalculator::calculate_bollinger_bands`
(calculator.rs:232-248). -/
def calculate_bollinger_bands (closes : List ℚ) : Option BollingerBands :=
  if closes.length < 20 then none
  else
    let ma := calculate_ma closes
    let variance :=
      (closes.map (fun price => (price - ma) ^ 2)).foldl (· + ·) 0 /
        (closes.length : ℚ)
    let std_dev := sqrtF variance
    some { upper := ma + 2 * std_dev, middle := ma,
           lower := ma - 2 * std_dev, width := 4 * std_dev }

/-- The trailing window `&xs[i + 1 - k ..= i]` of the Rust code (only
evaluated under `i ≥ k − 1`, where it has exactly `k` elements for
`i < xs.length`). -/
def windowSlice (xs : List ℚ) (i k : Nat) : List ℚ :=
  (xs.take (i + 1)).drop (i + 1 - k)

/-- The `IndicatorValues` computed at index `i` of a single-symbol series
— the body of the per-index loop of
`IndicatorCalculator::calculate_symbol_indicators` (calculator.rs:88-134):
moving averages for each configured window size once `i ≥ k − 1`
(recorded only for the sizes 5/10/20/60, volume MA only for 5),
change/amplitude from `i ≥ 1`, RSI and Bollinger over trailing 20-windows
from `i ≥ 19`, MACD over the trailing 26-window from `i ≥ 25`. -/
def indicatorsAt (window_sizes : List Nat)
    (closes highs lows volumes : List ℚ) (i : Nat) : IndicatorValues :=
  let withMAs := window_sizes.foldl (fun acc ws =>
    let acc := if ws - 1 ≤ i then
        let ma := calculate_ma (windowSlice closes i ws)
        match ws with
        | 5 => { acc with ma5 := some ma }
        | 10 => { acc with ma10 := some ma }
        | 20 => { acc with ma20 := some ma }
        | 60 => { acc with ma60 := some ma }
        | _ => acc
      else acc
    if ws - 1 ≤ i then
      let vol_ma := calculate_ma (windowSlice volumes i ws)
      match ws with
      | 5 => { acc with volume_ma5 := some vol_ma }
      | _ => acc
    else acc) defaultIndicatorValues
  { withMAs with
    change_percent := if 1 ≤ i then
        some ((closes.getD i 0 - closes.getD (i - 1) 0) /
          closes.getD (i - 1) 0 * 100)
      else none,
    amplitude := if 1 ≤ i then
        some ((highs.getD i 0 - lows.getD i 0) / closes.getD (i - 1) 0 * 100)
      else none,
    rsi := if 19 ≤ i then some (calculate_rsi (windowSlice closes i 20))
      else none,
    macd := if 25 ≤ i then calculate_macd (windowSlice closes i 26)
      else none,
    bollinger := if 19 ≤ i then
        calculate_bollinger_bands (windowSlice closes i 20)
      else none }

/-- `IndicatorCalculator::calculate_symbol_indicators`
(calculator.rs:75-137): one `Some(IndicatorValues)` per index of the
(already chronologically sorted, single-symbol) series. -/
def calculate_symbol_indicators (window_sizes : List Nat)
    (time_series : List Proc.TDXDayRecord) : List (Option IndicatorValues) :=
  let closes := time_series.map (fun r => r.close)
  let highs := time_series.map (fun r => r.high)
  let lows := time_series.map (fun r => r.low)
  let volumes := time_series.map (fun r => (r.volume : ℚ))
  (List.range time_series.length).map (fun i =>
    some (indicatorsAt window_sizes closes highs lows volumes i))

/-- The per-symbol block shared by the sequential and the parallel engine:
records of the symbol in input order, date-sorted, zipped with their
indicator sets (`if let Some(Some(values)) = calculated.get(i)`). -/
def symbolEnhanced (window_sizes : List Nat) (data : List Proc.TDXDayRecord)
    (s : String) : List EnhancedDayRecord :=
  let sorted := sortByB Proc.dateLe (data.filter (fun r => r.symbol == s))
  let inds := calculate_symbol_indicators window_sizes sorted
  (sorted.zip inds).filterMap (fun p =>
    match p.2 with
    | some v => some { base_record := p.1, indicators := v }
    | none => none)

/-- `IndicatorCalculator::calculate_all_indicators` (calculator.rs:32-72),
the sequential engine: per-symbol blocks concatenated in the `HashMap`
iteration order `syms` — note there is **no** final sort. -/
def calculate_all_indicators (window_sizes : List Nat) (syms : List String)
    (data : List Proc.TDXDayRecord) : List EnhancedDayRecord :=
  syms.flatMap (fun s => symbolEnhanced window_sizes data s)

/-- The final comparison of `calculate_parallel`
(`a.date().cmp(&b.date()).then(a.symbol().cmp(b.symbol()))`). -/
def dateSymbolLe (a b : EnhancedDayRecord) : Bool :=
  decide (a.base_record.date < b.base_record.date) ||
    (a.base_record.date == b.base_record.date &&
      strLe a.base_record.symbol b.base_record.symbol)

/-- `IndicatorCalculator::calculate_parallel` (calculator.rs:251-299): the
same per-symbol blocks (computed independently per symbol), then a final
re-sort of the merged output by `(date, symbol)`. -/
def calculate_parallel (window_sizes : List Nat) (syms : List String)
    (data : List Proc.TDXDayRecord) : List EnhancedDayRecord :=
  sortByB dateSymbolLe
    (syms.flatMap (fun s => symbolEnhanced window_sizes data s))

end IndicatorCalculator

/-! ### Concrete decoder inputs used by the C4 and C5 witnesses.
Each 32-byte record encodes (little-endian)
`date, open, high, low, close, amount, volume, reserved`;
prices are cents: open 1000.00, high 1050.00, low 980.00, close 1020.00. -/

/-- Two valid records with out-of-order dates 20240102, 20240101. -/
def c4_buffer : List Nat :=
  [230, 214, 52, 1, 160, 134, 1, 0, 40, 154, 1, 0, 208, 126, 1, 0,
   112, 142, 1, 0, 0, 0, 0, 0, 10, 0, 0, 0, 0, 0, 0, 0,
   229, 214, 52, 1, 160, 134, 1, 0, 40, 154, 1, 0, 208, 126, 1, 0,
   112, 142, 1, 0, 0, 0, 0, 0, 10, 0, 0, 0, 0, 0, 0, 0]

/-- The decoded output of `c4_buffer`: both records, re-sorted by date. -/
def c4_sorted : List TDX.TDXDayRecord :=
  [{ date := 20240101, symbol := "600000", openC := 100000, highC := 105000,
     lowC := 98000, closeC := 102000, volume := 10, amountBits := 0,
     market := "SH" },
   { date := 20240102, symbol := "600000", openC := 100000, highC := 105000,
     lowC := 98000, closeC := 102000, volume := 10, amountBits := 0,
     market := "SH" }]

/-- One valid record with date 20240101 (same prices as `c4_buffer`). -/
def c5_buffer : List Nat :=
  [229, 214, 52, 1, 160, 134, 1, 0, 40, 154, 1, 0, 208, 126, 1, 0,
   112, 142, 1, 0, 0, 0, 0, 0, 10, 0, 0, 0, 0, 0, 0, 0]

/-- The single record decoded from `c5_buffer`. -/
def c5_record : TDX.TDXDayRecord :=
  { date := 20240101, symbol := "600000", openC := 100000, highC := 105000,
    lowC := 98000, closeC := 102000, volume := 10, amountBits := 0,
    market := "SH" }

/-- A well-formed processor-side record, used by the C1 counterexample. -/
def c1_record : Proc.TDXDayRecord :=
  { date := 20240101, symbol := "600000", openP := 10, high := 11, low := 9,
    close := 10, volume := 1000000, amount := 10500000, market := "SH" }

/-- Five same-symbol records on consecutive dates, used by the C8
witness. -/
def c8_data : List Proc.TDXDayRecord :=
  [20240101, 20240102, 20240103, 20240104, 20240105].map fun d =>
    { date := d, symbol := "600000", openP := 10, high := 11, low := 9,
      close := 10, volume := 1000000, amount := 10500000, market := "SH" }

/-- The single aggregated entry produced from `c8_data` with window size 3
and the `Count` function: one full chunk of 3 records starting at the
earliest date; the trailing 2 records are dropped. -/
def c8_value : DataAggregator.AggregatedValue :=
  { key := ("600000", 20240101), value := ((3 : Nat) : ℚ), count := some 3 }

/-- Two records of different symbols whose input order puts the later date
first; used by the C3 counterexample. -/
def c3_data : List Proc.TDXDayRecord :=
  [{ date := 20240102, symbol := "A", openP := 10, high := 11, low := 9,
     close := 10, volume := 100, amount := 0, market := "SH" },
   { date := 20240101, symbol := "B", openP := 10, high := 11, low := 9,
     close := 10, volume := 100, amount := 0, market := "SH" }]

/-- 26 same-symbol records on consecutive dates; enough history for the
MACD to be present at the last index.  Used by the C10 witness. -/
def c10_data : List Proc.TDXDayRecord :=
  (List.range 26).map fun k =>
    { date := k + 1, symbol := "600000", openP := 10, high := 11, low := 9,
      close := 10, volume := 100, amount := 0, market := "SH" }

/-- Out-of-range fallback record for `List.getD` in the C10 statement
(its `macd` is absent, so the theorem's hypothesis rules it out). -/
def defaultEnhanced : IndicatorCalculator.EnhancedDayRecord :=
  { base_record :=
      { date := 0, symbol := "", openP := 0, high := 0, low := 0,
        close := 0, volume := 0, amount := 0, market := "" },
    indicators := IndicatorCalculator.defaultIndicatorValues }

/-- Fallback `MACD` for `Option.getD` in the C10 statement, chosen to
*fail* the stated property (signal 1 ≠ 0 and histogram ≠ dif), so the
theorem cannot hold through the fallback. -/
def macdProbe : IndicatorCalculator.MACD :=
  { dif := 0, signal := 1, histogram := 1 }

/-! ## Theorems -/

/-! ### Helper lemmas -/

theorem charListLe_total : ∀ a b : List Char, charListLe a b || charListLe b a
  | [], _ => by simp [charListLe]
  | _ :: _, [] => by simp [charListLe]
  | a :: as, b :: bs => by
    simp only [charListLe]
    rcases lt_trichotomy a b with h | h | h
    · simp [h]
    · subst h
      simpa [lt_irrefl] using charListLe_total as bs
    · simp [h, not_lt_of_gt h]

theorem charListLe_trans :
    ∀ a b c : List Char, charListLe a b → charListLe b c → charListLe a c
  | [], _, _, _, _ => by simp [charListLe]
  | _ :: _, [], _, h, _ => by simp [charListLe] at h
  | _ :: _, _ :: _, [], _, h => by simp [charListLe] at h
  | a :: as, b :: bs, c :: cs, hab, hbc => by
    simp only [charListLe] at hab hbc ⊢
    rcases lt_trichotomy a b with h1 | h1 | h1
    · rcases lt_trichotomy b c with h2 | h2 | h2
      · simp [lt_trans h1 h2]
      · subst h2; simp [h1]
      · simp [h2, not_lt_of_gt h2] at hbc
    · subst h1
      rcases lt_trichotomy a c with h2 | h2 | h2
      · simp [h2]
      · subst h2
        simp only [lt_irrefl, if_false] at hab hbc ⊢
        exact charListLe_trans as bs cs hab hbc
      · simp [h2, not_lt_of_gt h2] at hbc
    · simp [h1, not_lt_of_gt h1] at hab

theorem exceptMapM_ok_length {f : α → Except ε β} :
    ∀ {l : List α} {out : List β}, exceptMapM f l = .ok out →
      out.length = l.length := by
  intro l
  induction l with
  | nil => intro out h; cases h; rfl
  | cons a as ih =>
    intro out h
    simp only [exceptMapM] at h
    cases hfa : f a with
    | error e => rw [hfa] at h; exact absurd h (by simp)
    | ok b =>
      rw [hfa] at h
      cases hrest : exceptMapM f as with
      | error e => rw [hrest] at h; exact absurd h (by simp)
      | ok bs =>
        rw [hrest] at h
        cases h
        simp [ih hrest]

theorem exceptMapM_ok_mem {f : α → Except ε β} :
    ∀ {l : List α} {out : List β}, exceptMapM f l = .ok out →
      ∀ b ∈ out, ∃ a ∈ l, f a = .ok b := by
  intro l
  induction l with
  | nil => intro out h; cases h; intro b hb; cases hb
  | cons a as ih =>
    intro out h
    simp only [exceptMapM] at h
    cases hfa : f a with
    | error e => rw [hfa] at h; exact absurd h (by simp)
    | ok b0 =>
      rw [hfa] at h
      cases hrest : exceptMapM f as with
      | error e => rw [hrest] at h; exact absurd h (by simp)
      | ok bs =>
        rw [hrest] at h
        cases h
        intro b hb
        rcases List.mem_cons.mp hb with hb | hb
        · exact ⟨a, List.mem_cons_self a as, hb ▸ hfa⟩
        · rcases ih hrest b hb with ⟨a', ha', hfa'⟩
          exact ⟨a', List.mem_cons_of_mem a ha', hfa'⟩

theorem TDX.priceQ_le_priceQ {a b : Nat} : priceQ a ≤ priceQ b ↔ a ≤ b := by
  unfold TDX.priceQ
  constructor
  · intro h
    by_contra hlt
    push_neg at hlt
    have hb : (b : ℚ) < a := by exact_mod_cast hlt
    linarith
  · intro h
    have hb : (a : ℚ) ≤ b := by exact_mod_cast h
    linarith

theorem TDX.priceQ_one : priceQ 1 = 1 / 100 := by
  unfold TDX.priceQ
  norm_num

theorem TDX.priceQ_million : priceQ 1000000 = 10000 := by
  unfold TDX.priceQ
  norm_num

theorem TDX.priceQ_nonpos {a : Nat} : priceQ a ≤ 0 ↔ a = 0 := by
  have h0 : priceQ 0 = 0 := by unfold TDX.priceQ; norm_num
  rw [← h0, TDX.priceQ_le_priceQ, Nat.le_zero]

theorem TDX.priceQ_lt_priceQ {a b : Nat} : priceQ a < priceQ b ↔ a < b := by
  rw [← not_le, ← not_le, TDX.priceQ_le_priceQ]

theorem TDX.validate_prices_cents_eq (o h l c : Nat) :
    validate_prices_cents o h l c =
      validate_prices (priceQ o) (priceQ h) (priceQ l) (priceQ c) := by
  unfold TDX.validate_prices_cents TDX.validate_prices
  rw [← TDX.priceQ_one, ← TDX.priceQ_million]
  simp only [TDX.priceQ_nonpos, TDX.priceQ_lt_priceQ, TDX.priceQ_le_priceQ,
    gt_iff_lt]

/-! ### C2 — symbol derivation -/

/-- C2, the claim as stated is false: `extract_symbol_market` accepts the
six-character non-digit stem "abcdef" (in a path containing the market
segment "/sh/") instead of failing with `InvalidSymbol`; the digit check
exists only in `ValidationUtils::validate_symbol`, which
`extract_symbol_market` never calls. -/
theorem c2_counterexample :
    TDX.extract_symbol_market "abcdef" "/sh/abcdef.day" =
      Except.ok ("abcdef", "SH") := rfl

/-- C2 (amended): symbol derivation in `extract_symbol_market` checks only
that the stem is exactly 6 bytes — it fails with `InvalidSymbol` iff the
stem's byte length differs from 6, and any 6-byte stem (digits or not)
passes the symbol check; the 6-ASCII-digit requirement is enforced only by
the standalone `ValidationUtils::validate_symbol`, which accepts a string
iff it is exactly 6 ASCII digits. -/
theorem c2_extract_symbol_length_only :
    (∀ stem path : String, stem.utf8ByteSize ≠ 6 →
        TDX.extract_symbol_market stem path = .error .invalidSymbol) ∧
    (∀ stem path res, TDX.extract_symbol_market stem path = .ok res →
        stem.utf8ByteSize = 6) ∧
    (∀ s : String, TDX.validate_symbol s = .ok () ↔
        (s.utf8ByteSize = 6 ∧ TDX.isDigits s.data = true)) := by
  refine ⟨?_, ?_, ?_⟩
  · intro stem path h
    simp [TDX.extract_symbol_market, h]
  · intro stem path res h
    by_contra hne
    simp [TDX.extract_symbol_market, hne] at h
  · intro s
    constructor
    · intro h
      by_contra hc
      rw [not_and_or] at hc
      rcases hc with hc | hc
      · simp [TDX.validate_symbol, hc] at h
      · by_cases hl : s.utf8ByteSize = 6
        · simp [TDX.validate_symbol, hl, hc] at h
        · simp [TDX.validate_symbol, hl] at h
    · intro ⟨h1, h2⟩
      simp [TDX.validate_symbol, h1, h2]

/-- Witness for `c2_extract_symbol_length_only`: the 5-byte stem "60000"
is rejected, and "600000" passes `validate_symbol`. -/
theorem c2_extract_symbol_length_only_witness :
    ("60000" : String).utf8ByteSize ≠ 6 ∧
    TDX.extract_symbol_market "60000" "/sh/60000.day" =
      .error .invalidSymbol ∧
    TDX.validate_symbol "600000" = .ok () :=
  ⟨by decide,
   c2_extract_symbol_length_only.1 "60000" "/sh/60000.day" (by decide),
   (c2_extract_symbol_length_only.2.2 "600000").2 ⟨by decide, by decide⟩⟩

theorem perm_insertB (le : α → α → Bool) (x : α) :
    ∀ acc : List α, List.Perm (insertB le x acc) (x :: acc)
  | [] => by simp [insertB]
  | y :: ys => by
    simp only [insertB]
    split
    · exact ((perm_insertB le x ys).cons y).trans (List.Perm.swap x y ys)
    · exact List.Perm.refl _

theorem pairwise_insertB {le : α → α → Bool}
    (htrans : ∀ a b c, le a b → le b c → le a c)
    (htotal : ∀ a b, le a b || le b a) (x : α) :
    ∀ {acc : List α}, acc.Pairwise (le · ·) →
      (insertB le x acc).Pairwise (le · ·) := by
  intro acc
  induction acc with
  | nil => intro _; simp [insertB]
  | cons y ys ih =>
    intro hp
    rcases List.pairwise_cons.mp hp with ⟨hy, hys⟩
    simp only [insertB]
    split
    · rename_i hyx
      refine List.pairwise_cons.mpr ⟨?_, ih hys⟩
      intro z hz
      rcases List.mem_cons.mp ((perm_insertB le x ys).mem_iff.mp hz)
        with hz | hz
      · exact hz ▸ hyx
      · exact hy z hz
    · rename_i hyx
      have hxy : le x y := by
        rcases Bool.or_eq_true_iff.mp (htotal y x) with h | h
        · exact absurd h hyx
        · exact h
      refine List.pairwise_cons.mpr ⟨?_, hp⟩
      intro z hz
      rcases List.mem_cons.mp hz with hz | hz
      · exact hz ▸ hxy
      · exact htrans x y z hxy (hy z hz)

theorem sortByB_perm (le : α → α → Bool) (l : List α) :
    List.Perm (sortByB le l) l := by
  suffices h : ∀ (l acc : List α),
      List.Perm (l.foldl (fun acc x => insertB le x acc) acc) (acc ++ l) by
    simpa using h l []
  intro l
  induction l with
  | nil => intro acc; simp
  | cons a as ih =>
    intro acc
    have h1 : (a :: as).foldl (fun acc x => insertB le x acc) acc
        = as.foldl (fun acc x => insertB le x acc) (insertB le a acc) := rfl
    rw [h1]
    have h2 := ih (insertB le a acc)
    have h3 : List.Perm (insertB le a acc ++ as) ((a :: acc) ++ as) :=
      (perm_insertB le a acc).append_right as
    have h4 : List.Perm (acc ++ a :: as) (a :: (acc ++ as)) := List.perm_middle
    exact (h2.trans h3).trans h4.symm

theorem sortByB_pairwise {le : α → α → Bool}
    (htrans : ∀ a b c, le a b → le b c → le a c)
    (htotal : ∀ a b, le a b || le b a) (l : List α) :
    (sortByB le l).Pairwise (le · ·) := by
  suffices h : ∀ (l acc : List α), acc.Pairwise (le · ·) →
      (l.foldl (fun acc x => insertB le x acc) acc).Pairwise (le · ·) by
    exact h l [] (by simp)
  intro l
  induction l with
  | nil => intro acc hacc; simpa using hacc
  | cons a as ih =>
    intro acc hacc
    exact ih _ (pairwise_insertB htrans htotal a hacc)

theorem except_bind_ok {x : Except ε α} {f : α → Except ε β} {b : β}
    (h : (x >>= f) = .ok b) : ∃ a, x = .ok a ∧ f a = .ok b := by
  cases x with
  | error e => exact absurd h (by simp [Bind.bind, Except.bind])
  | ok a => exact ⟨a, rfl, h⟩

theorem TDX.dateLe_trans (a b c : TDXDayRecord) :
    dateLe a b → dateLe b c → dateLe a c := by
  simp only [TDX.dateLe, decide_eq_true_eq]
  omega

theorem TDX.dateLe_total (a b : TDXDayRecord) : dateLe a b || dateLe b a := by
  simp only [TDX.dateLe]
  rcases Nat.le_total a.date b.date with h | h <;> simp [h]

theorem TDX.parse_ok_shape {buffer : List Nat} {s m : String}
    {l : List TDXDayRecord} (h : parse_binary_data buffer s m = .ok l) :
    ∃ recs, exceptMapM (fun c => convert_binary_record c s m)
        (listChunks 32 buffer) = .ok recs ∧ l = sortByB dateLe recs := by
  unfold TDX.parse_binary_data at h
  by_cases hlen : buffer.length % 32 ≠ 0
  · rw [if_pos hlen] at h
    exact absurd h (by simp)
  · rw [if_neg hlen] at h
    rcases except_bind_ok h with ⟨recs, hrec, hpure⟩
    refine ⟨recs, hrec, ?_⟩
    cases hpure
    rfl

theorem TDX.convert_ok_validate {chunk : List Nat} {s m : String}
    {r : TDXDayRecord} (h : convert_binary_record chunk s m = .ok r) :
    validate_prices_cents r.openC r.highC r.lowC r.closeC = .ok () := by
  unfold TDX.convert_binary_record at h
  dsimp only at h
  split at h
  · exact absurd h (by simp)
  · split at h
    · exact absurd h (by simp)
    · revert h
      cases hv : validate_prices_cents (readU32 chunk 4) (readU32 chunk 8)
          (readU32 chunk 12) (readU32 chunk 16) with
      | error e => intro h; exact absurd h (by simp)
      | ok u =>
        cases u
        intro h
        cases h
        exact hv

theorem TDX.validate_cents_ok_bounds {o h l c : Nat}
    (hv : validate_prices_cents o h l c = .ok ()) :
    l ≤ o ∧ o ≤ h ∧ l ≤ c ∧ c ≤ h ∧ l ≤ h ∧
    1 ≤ o ∧ o ≤ 1000000 ∧ 1 ≤ h ∧ h ≤ 1000000 ∧
    1 ≤ l ∧ l ≤ 1000000 ∧ 1 ≤ c ∧ c ≤ 1000000 := by
  unfold TDX.validate_prices_cents at hv
  split at hv
  · exact absurd hv (by simp)
  · split at hv
    · exact absurd hv (by simp)
    · split at hv
      · exact absurd hv (by simp)
      · split at hv
        · exact absurd hv (by simp)
        · rename_i h1 h2 h3 h4
          push_neg at h1 h2 h3 h4
          refine ⟨?_, ?_, ?_, ?_, ?_, ?_, ?_, ?_, ?_, ?_, ?_, ?_, ?_⟩ <;> omega

/-! ### C4 — decode: length contract and date-sorted output -/

/-- C4: for every buffer whose length is not a multiple of 32,
`parse_binary_data` fails with `InvalidLength`; and whenever it succeeds
(all records decoded and validated) the returned list is sorted ascending
by date. -/
theorem c4_decode_sorted_and_length_contract :
    (∀ (buffer : List Nat) (s m : String), buffer.length % 32 ≠ 0 →
        TDX.parse_binary_data buffer s m = .error .invalidLength) ∧
    (∀ (buffer : List Nat) (s m : String) (l : List TDX.TDXDayRecord),
        TDX.parse_binary_data buffer s m = .ok l →
        l.Pairwise (fun a b => a.date ≤ b.date)) := by
  constructor
  · intro buffer s m hlen
    unfold TDX.parse_binary_data
    rw [if_pos hlen]
  · intro buffer s m l h
    rcases TDX.parse_ok_shape h with ⟨recs, _, hsortEq⟩
    subst hsortEq
    have hs := sortByB_pairwise TDX.dateLe_trans TDX.dateLe_total recs
    exact hs.imp (by simp only [TDX.dateLe, decide_eq_true_eq]; exact id)

/-- Witness for `c4_decode_sorted_and_length_contract`: a 1-byte buffer is
rejected with `InvalidLength`, and the 64-byte buffer `c4_buffer`, whose
two records carry out-of-order dates, decodes to the date-sorted
`c4_sorted`. -/
theorem c4_decode_sorted_and_length_contract_witness :
    ([0] : List Nat).length % 32 ≠ 0 ∧
    TDX.parse_binary_data [0] "600000" "SH" = .error .invalidLength ∧
    TDX.parse_binary_data c4_buffer "600000" "SH" = .ok c4_sorted ∧
    c4_sorted.Pairwise (fun a b => a.date ≤ b.date) :=
  ⟨by decide,
   c4_decode_sorted_and_length_contract.1 [0] "600000" "SH" (by decide),
   by rfl,
   c4_decode_sorted_and_length_contract.2 c4_buffer "600000" "SH" c4_sorted
     (by rfl)⟩

/-! ### C5 — invariants of every successfully decoded record -/

/-- C5: every record in a successfully decoded sequence satisfies
`low ≤ open ≤ high`, `low ≤ close ≤ high`, `low ≤ high`, and all four
prices lie in the band `[0.01, 10000.00]` — although the code's band check
only tests `open`/`low` against the lower bound and `high`/`close` against
the upper bound, the relational constraints close the gap. -/
theorem c5_decoded_record_invariants :
    ∀ (buffer : List Nat) (s m : String) (l : List TDX.TDXDayRecord),
      TDX.parse_binary_data buffer s m = .ok l →
      ∀ r ∈ l,
        TDX.priceQ r.lowC ≤ TDX.priceQ r.openC ∧
        TDX.priceQ r.openC ≤ TDX.priceQ r.highC ∧
        TDX.priceQ r.lowC ≤ TDX.priceQ r.closeC ∧
        TDX.priceQ r.closeC ≤ TDX.priceQ r.highC ∧
        TDX.priceQ r.lowC ≤ TDX.priceQ r.highC ∧
        (1 / 100 : ℚ) ≤ TDX.priceQ r.openC ∧ TDX.priceQ r.openC ≤ 10000 ∧
        (1 / 100 : ℚ) ≤ TDX.priceQ r.highC ∧ TDX.priceQ r.highC ≤ 10000 ∧
        (1 / 100 : ℚ) ≤ TDX.priceQ r.lowC ∧ TDX.priceQ r.lowC ≤ 10000 ∧
        (1 / 100 : ℚ) ≤ TDX.priceQ r.closeC ∧ TDX.priceQ r.closeC ≤ 10000 := by
  intro buffer s m l h r hr
  rcases TDX.parse_ok_shape h with ⟨recs, hrecs, hsortEq⟩
  subst hsortEq
  have hrmem : r ∈ recs := (sortByB_perm TDX.dateLe recs).mem_iff.mp hr
  rcases exceptMapM_ok_mem hrecs r hrmem with ⟨chunk, _, hconv⟩
  have hv := TDX.convert_ok_validate hconv
  have hb := TDX.validate_cents_ok_bounds hv
  rw [← TDX.priceQ_one, ← TDX.priceQ_million]
  refine ⟨?_, ?_, ?_, ?_, ?_, ?_, ?_, ?_, ?_, ?_, ?_, ?_, ?_⟩ <;>
    rw [TDX.priceQ_le_priceQ] <;> omega

/-- Witness for `c5_decoded_record_invariants`: the single-record buffer
`c5_buffer` decodes to `[c5_record]`, and `c5_record` satisfies all the
invariants. -/
theorem c5_decoded_record_invariants_witness :
    TDX.parse_binary_data c5_buffer "600000" "SH" = .ok [c5_record] ∧
    c5_record ∈ [c5_record] ∧
    (TDX.priceQ c5_record.lowC ≤ TDX.priceQ c5_record.openC ∧
     TDX.priceQ c5_record.openC ≤ TDX.priceQ c5_record.highC ∧
     TDX.priceQ c5_record.lowC ≤ TDX.priceQ c5_record.closeC ∧
     TDX.priceQ c5_record.closeC ≤ TDX.priceQ c5_record.highC ∧
     TDX.priceQ c5_record.lowC ≤ TDX.priceQ c5_record.highC ∧
     (1 / 100 : ℚ) ≤ TDX.priceQ c5_record.openC ∧
     TDX.priceQ c5_record.openC ≤ 10000 ∧
     (1 / 100 : ℚ) ≤ TDX.priceQ c5_record.highC ∧
     TDX.priceQ c5_record.highC ≤ 10000 ∧
     (1 / 100 : ℚ) ≤ TDX.priceQ c5_record.lowC ∧
     TDX.priceQ c5_record.lowC ≤ 10000 ∧
     (1 / 100 : ℚ) ≤ TDX.priceQ c5_record.closeC ∧
     TDX.priceQ c5_record.closeC ≤ 10000) :=
  ⟨by rfl, by decide,
   c5_decoded_record_invariants c5_buffer "600000" "SH" [c5_record]
     (by rfl) c5_record (by decide)⟩

/-! ### C1 — RemoveNonTradingDays with an empty calendar -/

/-- C1, the claim as stated is false: with an empty trading-calendar set,
`remove_non_trading_days` is not a no-op — `HashSet::contains` is false
for every date, so the (valid) record is dropped, not kept. -/
theorem c1_counterexample :
    DataCleaner.remove_non_trading_days [] [c1_record] = ([], 1) := rfl

/-- C1 (amended): with an empty trading-calendar set,
`RemoveNonTradingDays` drops *every* record — the output is empty and the
removed count is the full input length (the opposite of a no-op). -/
theorem c1_empty_calendar_drops_all :
    ∀ data : List Proc.TDXDayRecord,
      DataCleaner.remove_non_trading_days [] data = ([], data.length) := by
  intro data
  induction data with
  | nil => rfl
  | cons r rest ih =>
    simp [DataCleaner.remove_non_trading_days, ih, List.contains]

/-! ### C6 — RemoveDuplicates with the default (symbol, date) key -/

theorem removeDupSeen_sublist :
    ∀ (data : List Proc.TDXDayRecord) (seen : List (String × Nat)),
      (DataCleaner.removeDupSeen seen data).1.Sublist data := by
  intro data
  induction data with
  | nil => intro seen; simp [DataCleaner.removeDupSeen]
  | cons r rest ih =>
    intro seen
    simp only [DataCleaner.removeDupSeen]
    split
    · exact (ih seen).cons r
    · exact (ih _).cons₂ r

theorem removeDupSeen_nodup :
    ∀ (data : List Proc.TDXDayRecord) (seen : List (String × Nat)),
      ((DataCleaner.removeDupSeen seen data).1.map DataCleaner.dedupKey).Nodup
      ∧ ∀ r ∈ (DataCleaner.removeDupSeen seen data).1,
          ¬ seen.contains (DataCleaner.dedupKey r) := by
  intro data
  induction data with
  | nil => intro seen; simp [DataCleaner.removeDupSeen]
  | cons r rest ih =>
    intro seen
    simp only [DataCleaner.removeDupSeen]
    split
    · rename_i hseen
      exact ⟨(ih seen).1, fun r' hr' => (ih seen).2 r' hr'⟩
    · rename_i hseen
      rcases ih (DataCleaner.dedupKey r :: seen) with ⟨hnd, hmem⟩
      constructor
      · simp only [List.map_cons, List.nodup_cons]
        refine ⟨?_, hnd⟩
        intro hk
        rcases List.mem_map.mp hk with ⟨r', hr', hkey⟩
        have := hmem r' hr'
        simp [List.contains, hkey] at this
      · intro r' hr'
        rcases List.mem_cons.mp hr' with hr' | hr'
        · subst hr'; exact fun h => hseen h
        · have := hmem r' hr'
          intro hc
          exact this (by simp [List.contains] at hc ⊢; exact Or.inr hc)

theorem removeDupSeen_find :
    ∀ (data : List Proc.TDXDayRecord) (seen : List (String × Nat))
      (k : String × Nat), seen.contains k = false →
      (DataCleaner.removeDupSeen seen data).1.find?
          (fun r => DataCleaner.dedupKey r == k) =
        data.find? (fun r => DataCleaner.dedupKey r == k) := by
  intro data
  induction data with
  | nil => intro seen k _; rfl
  | cons r rest ih =>
    intro seen k hk
    by_cases hseen : seen.contains (DataCleaner.dedupKey r) = true
    · have hred : (DataCleaner.removeDupSeen seen (r :: rest)).1
          = (DataCleaner.removeDupSeen seen rest).1 := by
        simp only [DataCleaner.removeDupSeen]
        rw [if_pos hseen]
      have hne : (DataCleaner.dedupKey r == k) = false := by
        by_contra hne
        rw [Bool.not_eq_false, beq_iff_eq] at hne
        rw [hne] at hseen
        rw [hseen] at hk
        cases hk
      rw [hred]
      conv_rhs => rw [List.find?]
      simp only [hne]
      exact ih seen k hk
    · have hred : (DataCleaner.removeDupSeen seen (r :: rest)).1
          = r :: (DataCleaner.removeDupSeen
              (DataCleaner.dedupKey r :: seen) rest).1 := by
        simp only [DataCleaner.removeDupSeen]
        rw [if_neg hseen]
      rw [hred]
      rw [List.find?, List.find?]
      by_cases heq : (DataCleaner.dedupKey r == k) = true
      · simp only [heq]
      · have heq' : (DataCleaner.dedupKey r == k) = false := by
          rwa [Bool.not_eq_true] at heq
        simp only [heq']
        refine ih _ k ?_
        have hksym : (k == DataCleaner.dedupKey r) = false := by
          by_contra hc
          rw [Bool.not_eq_false, beq_iff_eq] at hc
          rw [hc, beq_self_eq_true] at heq'
          cases heq'
        simp only [List.contains, List.elem_cons, hksym, Bool.false_or]
        simpa [List.contains] using hk

/-- C6: `RemoveDuplicates` with the default `(symbol, date)` key (the Rust
default is the empty key list, cleaner.rs:417) keeps a subsequence of the
input in which every `(symbol, date)` pair occurs at most once, and for
every key the surviving record is exactly the first occurrence in input
order (so every later record sharing the key is dropped). -/
theorem c6_remove_duplicates_default :
    ∀ data : List Proc.TDXDayRecord,
      ((DataCleaner.remove_duplicates data []).1.map
          DataCleaner.dedupKey).Nodup ∧
      (DataCleaner.remove_duplicates data []).1.Sublist data ∧
      ∀ k : String × Nat,
        (DataCleaner.remove_duplicates data []).1.find?
            (fun r => DataCleaner.dedupKey r == k) =
          data.find? (fun r => DataCleaner.dedupKey r == k) := by
  intro data
  refine ⟨(removeDupSeen_nodup data []).1, removeDupSeen_sublist data [],
    fun k => removeDupSeen_find data [] k rfl⟩

/-! ### C7 — ValidatePriceConsistency is idempotent -/

theorem fix_record_bounds (r : Proc.TDXDayRecord) :
    (DataCleaner.fix_record r).low ≤ (DataCleaner.fix_record r).high ∧
    (DataCleaner.fix_record r).low ≤ (DataCleaner.fix_record r).openP ∧
    (DataCleaner.fix_record r).openP ≤ (DataCleaner.fix_record r).high ∧
    (DataCleaner.fix_record r).low ≤ (DataCleaner.fix_record r).close ∧
    (DataCleaner.fix_record r).close ≤ (DataCleaner.fix_record r).high := by
  unfold DataCleaner.fix_record DataCleaner.fix_swap
    DataCleaner.fix_open_high DataCleaner.fix_open_low
    DataCleaner.fix_close_high DataCleaner.fix_close_low
  split_ifs <;> refine ⟨?_, ?_, ?_, ?_, ?_⟩ <;> simp_all <;> linarith

theorem fix_record_idem (r : Proc.TDXDayRecord) :
    DataCleaner.fix_record (DataCleaner.fix_record r) =
      DataCleaner.fix_record r := by
  rcases fix_record_bounds r with ⟨h1, h2, h3, h4, h5⟩
  generalize hs : DataCleaner.fix_record r = s at h1 h2 h3 h4 h5
  have e1 : DataCleaner.fix_swap s = s := by
    unfold DataCleaner.fix_swap
    rw [if_neg (not_lt.mpr h1)]
  have e2 : DataCleaner.fix_open_high s = s := by
    unfold DataCleaner.fix_open_high
    rw [if_neg (not_lt.mpr h3)]
  have e3 : DataCleaner.fix_open_low s = s := by
    unfold DataCleaner.fix_open_low
    rw [if_neg (not_lt.mpr h2)]
  have e4 : DataCleaner.fix_close_high s = s := by
    unfold DataCleaner.fix_close_high
    rw [if_neg (not_lt.mpr h5)]
  have e5 : DataCleaner.fix_close_low s = s := by
    unfold DataCleaner.fix_close_low
    rw [if_neg (not_lt.mpr h4)]
  unfold DataCleaner.fix_record
  rw [e1, e2, e3, e4, e5]

/-- C7: the `ValidatePriceConsistency` repair (swap `high`/`low` when
`high < low`, then clamp `open` and `close` into `[low, high]`) is
idempotent: applying it twice yields the same record sequence as applying
it once. -/
theorem c7_validate_price_consistency_idempotent :
    ∀ data : List Proc.TDXDayRecord,
      (DataCleaner.validate_price_consistency
          (DataCleaner.validate_price_consistency data).1).1 =
        (DataCleaner.validate_price_consistency data).1 := by
  intro data
  simp only [DataCleaner.validate_price_consistency, List.map_map]
  exact List.map_congr_left fun r _ => fix_record_idem r

/-! ### C8 and C9 — aggregator -/

theorem exceptMapM_flatten_length {f : α → Except ε (List β)} {g : α → Nat}
    (hg : ∀ a b, f a = .ok b → b.length = g a) :
    ∀ {l : List α} {out : List (List β)}, exceptMapM f l = .ok out →
      out.flatten.length = (l.map g).sum := by
  intro l
  induction l with
  | nil => intro out h; cases h; rfl
  | cons a as ih =>
    intro out h
    simp only [exceptMapM] at h
    cases hfa : f a with
    | error e => rw [hfa] at h; exact absurd h (by simp)
    | ok b =>
      rw [hfa] at h
      cases hrest : exceptMapM f as with
      | error e => rw [hrest] at h; exact absurd h (by simp)
      | ok bs =>
        rw [hrest] at h
        cases h
        simp only [List.flatten_cons, List.length_append, List.map_cons,
          List.sum_cons]
        rw [hg a b hfa, ih hrest]

theorem chunks_full_count {w : Nat} (hw : 0 < w) (l : List α) :
    ((listChunks w l).filter (fun c => c.length == w)).length
      = l.length / w := by
  suffices h : ∀ (fuel : Nat) (l : List α), l.length ≤ fuel →
      ((listChunksF w fuel l).filter (fun c => c.length == w)).length
        = l.length / w by
    exact h l.length l le_rfl
  intro fuel
  induction fuel with
  | zero =>
    intro l hl
    cases l with
    | nil => simp [listChunksF]
    | cons a rest => simp at hl
  | succ fuel ih =>
    intro l hl
    cases l with
    | nil => simp [listChunksF]
    | cons a rest =>
      simp only [listChunksF]
      by_cases hcase : w ≤ rest.length + 1
      · have htake : ((a :: rest).take w).length = w := by
          rw [List.length_take]
          simp only [List.length_cons]
          omega
        rw [List.filter_cons_of_pos (by simp [htake])]
        simp only [List.length_cons] at hl ⊢
        rw [ih _ (by simp only [List.length_drop, List.length_cons]; omega)]
        simp only [List.length_drop, List.length_cons]
        rw [Nat.div_eq_sub_div hw hcase]
      · push_neg at hcase
        have hne : (((a :: rest).take w).length == w) = false := by
          rw [List.length_take]
          simp only [List.length_cons, beq_eq_false_iff_ne, ne_eq]
          omega
        rw [List.filter_cons_of_neg (by rw [Bool.not_eq_true]; exact hne)]
        have hdropnil : (a :: rest).drop w = [] := by
          apply List.eq_nil_of_length_eq_zero
          simp only [List.length_drop, List.length_cons]
          omega
        have hz : (rest.length + 1) / w = 0 := Nat.div_eq_of_lt (by
          simpa using hcase)
        rw [hdropnil]
        simp only [List.length_cons]
        cases fuel <;> simp [listChunksF, hz]

/-- C8: for every input and every aggregation function, `TimeWindow`
aggregation with window size `w > 0` partitions the records by symbol,
sorts each partition chronologically, and emits exactly one entry per full
chunk of exactly `w` consecutive records (`⌊count/w⌋` entries per symbol;
the trailing partial chunk is dropped), each entry carrying a supporting
count of exactly `w`.  In particular 5 same-symbol records with `w = 3`
yield exactly one entry (see the witness). -/
theorem c8_time_window_full_chunks :
    ∀ (data : List Proc.TDXDayRecord) (w : Nat)
      (fn : DataAggregator.AggregationFunction) (syms : List String)
      (vs : List DataAggregator.AggregatedValue),
      0 < w → Proc.IsSymbolOrder syms data →
      DataAggregator.aggregate_time_window syms data w fn = .ok vs →
      vs.length = (syms.map
          (fun s => (data.countP (fun r => r.symbol == s)) / w)).sum ∧
      vs.all (fun v => v.count == some w) = true := by
  intro data w fn syms vs hw _ hok
  unfold DataAggregator.aggregate_time_window at hok
  rcases except_bind_ok hok with ⟨parts, hparts, hpure⟩
  cases hpure
  constructor
  · refine exceptMapM_flatten_length ?_ hparts
    intro s part hp
    simp only at hp
    have h1 := exceptMapM_ok_length hp
    rw [h1, chunks_full_count hw, (sortByB_perm _ _).length_eq,
      ← List.countP_eq_length_filter]
  · rw [List.all_eq_true]
    intro v hv
    rcases List.mem_flatten.mp hv with ⟨part, hpart, hvpart⟩
    rcases exceptMapM_ok_mem hparts part hpart with ⟨s, _, hfs⟩
    simp only at hfs
    rcases exceptMapM_ok_mem hfs v hvpart with ⟨window, hwmem, hbuild⟩
    have hwlen : (window.length == w) = true := (List.mem_filter.mp hwmem).2
    rcases except_bind_ok hbuild with ⟨q, _, hq⟩
    cases hq
    simpa using hwlen

/-- Witness for `c8_time_window_full_chunks`: 5 same-symbol records with
window size 3 and the `Count` function yield exactly 1 entry, with
supporting count 3. -/
theorem c8_time_window_full_chunks_witness :
    0 < 3 ∧ Proc.IsSymbolOrder ["600000"] c8_data ∧
    DataAggregator.aggregate_time_window ["600000"] c8_data 3 .count
      = .ok [c8_value] ∧
    ([c8_value].length = ((["600000"].map
        (fun s => (c8_data.countP (fun r => r.symbol == s)) / 3)).sum) ∧
      [c8_value].all (fun v => v.count == some 3) = true) :=
  ⟨by decide, by decide, by rfl,
   c8_time_window_full_chunks c8_data 3 .count ["600000"] [c8_value]
     (by decide) (by decide) (by rfl)⟩

/-- C9: applying any aggregation function — including `Custom` variants
and ones naming an unknown field — to an empty record set yields `0` and
never an error: the empty-input short-circuit precedes the match on the
function and the field-name lookup. -/
theorem c9_empty_aggregation_yields_zero :
    ∀ fn : DataAggregator.AggregationFunction,
      DataAggregator.apply_aggregation_function [] fn = .ok 0 := by
  intro fn
  rfl

/-! ### C3 — ordering of the indicator engine's merged output -/

theorem dateSymbolLe_iff (a b : IndicatorCalculator.EnhancedDayRecord) :
    IndicatorCalculator.dateSymbolLe a b = true ↔
      (a.base_record.date < b.base_record.date ∨
        (a.base_record.date = b.base_record.date ∧
          strLe a.base_record.symbol b.base_record.symbol = true)) := by
  simp [IndicatorCalculator.dateSymbolLe, Bool.or_eq_true, decide_eq_true_eq,
    Bool.and_eq_true, beq_iff_eq]

theorem dateSymbolLe_trans (a b c : IndicatorCalculator.EnhancedDayRecord) :
    IndicatorCalculator.dateSymbolLe a b →
    IndicatorCalculator.dateSymbolLe b c →
    IndicatorCalculator.dateSymbolLe a c := by
  rw [dateSymbolLe_iff, dateSymbolLe_iff, dateSymbolLe_iff]
  intro hab hbc
  rcases hab with hab | ⟨hab, hab2⟩ <;> rcases hbc with hbc | ⟨hbc, hbc2⟩
  · exact Or.inl (lt_trans hab hbc)
  · exact Or.inl (hbc ▸ hab)
  · exact Or.inl (hab ▸ hbc)
  · exact Or.inr ⟨hab.trans hbc,
      charListLe_trans _ _ _ hab2 hbc2⟩

theorem dateSymbolLe_total (a b : IndicatorCalculator.EnhancedDayRecord) :
    IndicatorCalculator.dateSymbolLe a b ||
      IndicatorCalculator.dateSymbolLe b a := by
  rcases Nat.lt_trichotomy a.base_record.date b.base_record.date
    with h | h | h
  · simp [dateSymbolLe_iff, h]
  · rcases Bool.or_eq_true_iff.mp
        (charListLe_total a.base_record.symbol.data
          b.base_record.symbol.data) with hs | hs
    · simp only [Bool.or_eq_true]
      exact Or.inl ((dateSymbolLe_iff a b).mpr (Or.inr ⟨h, hs⟩))
    · simp only [Bool.or_eq_true]
      exact Or.inr ((dateSymbolLe_iff b a).mpr (Or.inr ⟨h.symm, hs⟩))
  · simp [dateSymbolLe_iff, h]

/-- C3, the claim as stated is false for the sequential variant: the input
`c3_data` (symbol "A" dated 20240102 before symbol "B" dated 20240101),
processed in the legitimate group order `["A", "B"]`, produces a merged
output that is *not* ordered by (date, symbol) — `calculate_all_indicators`
performs no final sort, so the blocks appear in group-processing order. -/
theorem c3_counterexample :
    Proc.IsSymbolOrder ["A", "B"] c3_data ∧
    ¬ (IndicatorCalculator.calculate_all_indicators [5, 10, 20, 60]
        ["A", "B"] c3_data).Pairwise
      (fun a b => a.base_record.date < b.base_record.date ∨
        (a.base_record.date = b.base_record.date ∧
          strLe a.base_record.symbol b.base_record.symbol = true)) := by
  constructor
  · decide
  · intro hp
    have h01 := List.pairwise_iff_getElem.mp hp 0 1 (by decide) (by decide)
      (by decide)
    revert h01
    decide

/-- C3 (amended): only the parallel variant restores the deterministic
(date, then symbol) ordering — for every input and every group-processing
order, `calculate_parallel` equals the sequential output re-sorted by
(date, symbol), and that merged output is ordered by date then symbol; the
sequential `calculate_all_indicators` merely concatenates the per-symbol
blocks in group-processing order (no final sort), which the counterexample
shows need not be (date, symbol)-ordered. -/
theorem c3_parallel_sorted :
    (∀ (wins : List Nat) (syms : List String)
        (data : List Proc.TDXDayRecord),
        IndicatorCalculator.calculate_parallel wins syms data =
          sortByB IndicatorCalculator.dateSymbolLe
            (IndicatorCalculator.calculate_all_indicators wins syms data)) ∧
    (∀ (wins : List Nat) (syms : List String)
        (data : List Proc.TDXDayRecord),
        (IndicatorCalculator.calculate_parallel wins syms data).Pairwise
          (fun a b => a.base_record.date < b.base_record.date ∨
            (a.base_record.date = b.base_record.date ∧
              strLe a.base_record.symbol b.base_record.symbol = true))) := by
  constructor
  · intro wins syms data
    rfl
  · intro wins syms data
    have hs := sortByB_pairwise dateSymbolLe_trans dateSymbolLe_total
      (IndicatorCalculator.calculate_all_indicators wins syms data)
    exact hs.imp fun h => (dateSymbolLe_iff _ _).mp h

/-! ### C10 — MACD signal is 0 and histogram equals DIF -/

theorem difAt_zero {closes : List ℚ} (h : 26 ≤ closes.length) :
    IndicatorCalculator.difAt closes 0 =
      some (IndicatorCalculator.calculate_ema closes 12 -
        IndicatorCalculator.calculate_ema closes 26) := by
  unfold IndicatorCalculator.difAt
  rw [List.drop_zero]
  rw [if_pos (by omega), if_pos h]

theorem difAt_succ_none {closes : List ℚ} (hlen : closes.length = 26)
    (j : Nat) : IndicatorCalculator.difAt closes (j + 1) = none := by
  unfold IndicatorCalculator.difAt
  have hl : (closes.drop (j + 1)).length = 25 - j := by
    simp [List.length_drop, hlen]
  by_cases h12 : 12 ≤ (closes.drop (j + 1)).length
  · rw [if_pos h12, if_neg (by rw [hl]; omega)]
  · rw [if_neg h12]

theorem macd_of_26 {closes : List ℚ} (hlen : closes.length = 26)
    {m : IndicatorCalculator.MACD}
    (hm : IndicatorCalculator.calculate_macd closes = some m) :
    m.signal = 0 ∧ m.histogram = m.dif := by
  have hdv : (List.range closes.length).filterMap
      (IndicatorCalculator.difAt closes)
      = [IndicatorCalculator.calculate_ema closes 12 -
          IndicatorCalculator.calculate_ema closes 26] := by
    rw [hlen,
      show List.range 26 = 0 :: (List.range 25).map Nat.succ from
        List.range_succ_eq_map 25,
      List.filterMap_cons_some (difAt_zero (by rw [hlen])),
      List.filterMap_map]
    have hnil : List.filterMap (IndicatorCalculator.difAt closes ∘ Nat.succ)
        (List.range 25) = [] := by
      rw [List.filterMap_eq_nil_iff]
      intro j _
      exact difAt_succ_none hlen j
    rw [hnil]
  unfold IndicatorCalculator.calculate_macd at hm
  rw [if_neg (by omega), hdv] at hm
  norm_num at hm
  cases hm
  exact ⟨rfl, rfl⟩

theorem indicatorsAt_macd (wins : List Nat)
    (closes highs lows volumes : List ℚ) (i : Nat) :
    (IndicatorCalculator.indicatorsAt wins closes highs lows volumes
        i).macd =
      if 25 ≤ i then
        IndicatorCalculator.calculate_macd
          (IndicatorCalculator.windowSlice closes i 26)
      else none := rfl

theorem windowSlice_length {xs : List ℚ} {i k : Nat} (h1 : k - 1 ≤ i)
    (h2 : i < xs.length) (hk : 0 < k) :
    (IndicatorCalculator.windowSlice xs i k).length = k := by
  unfold IndicatorCalculator.windowSlice
  simp only [List.length_drop, List.length_take]
  omega

theorem symbolEnhanced_macd_shape {wins : List Nat}
    {data : List Proc.TDXDayRecord} {s : String}
    {e : IndicatorCalculator.EnhancedDayRecord}
    (he : e ∈ IndicatorCalculator.symbolEnhanced wins data s) :
    ∃ (closes : List ℚ) (i : Nat), i < closes.length ∧
      e.indicators.macd =
        (if 25 ≤ i then
          IndicatorCalculator.calculate_macd
            (IndicatorCalculator.windowSlice closes i 26)
        else none) := by
  unfold IndicatorCalculator.symbolEnhanced at he
  dsimp only at he
  rcases List.mem_filterMap.mp he with ⟨p, hp, hg⟩
  rcases p with ⟨r, ov⟩
  cases hov : ov with
  | none => rw [hov] at hg; cases hg
  | some v =>
    rw [hov] at hg
    have h2 : ov ∈ IndicatorCalculator.calculate_symbol_indicators wins
        (sortByB Proc.dateLe (data.filter (fun r => r.symbol == s))) :=
      (List.of_mem_zip hp).2
    unfold IndicatorCalculator.calculate_symbol_indicators at h2
    dsimp only at h2
    rcases List.mem_map.mp h2 with ⟨i, hi, hvi⟩
    rw [hov] at hvi
    injection hvi with hvi
    injection hg with hg
    refine ⟨(sortByB Proc.dateLe
      (data.filter (fun r => r.symbol == s))).map (fun r => r.close), i,
      ?_, ?_⟩
    · rw [List.length_map]
      exact List.mem_range.mp hi
    · rw [← hg]
      dsimp only
      rw [← hvi]
      exact indicatorsAt_macd wins _ _ _ _ i

theorem enhanced_macd {wins : List Nat} {syms : List String}
    {data : List Proc.TDXDayRecord}
    {e : IndicatorCalculator.EnhancedDayRecord}
    (he : e ∈ IndicatorCalculator.calculate_all_indicators wins syms data)
    (hm : e.indicators.macd.isSome = true) :
    (e.indicators.macd.getD macdProbe).signal = 0 ∧
    (e.indicators.macd.getD macdProbe).histogram =
      (e.indicators.macd.getD macdProbe).dif := by
  unfold IndicatorCalculator.calculate_all_indicators at he
  rcases List.mem_flatMap.mp he with ⟨s, _, hse⟩
  rcases symbolEnhanced_macd_shape hse with ⟨closes, i, hilen, hmacd⟩
  by_cases h25 : 25 ≤ i
  · rw [if_pos h25] at hmacd
    obtain ⟨m, hm'⟩ := Option.isSome_iff_exists.mp hm
    have hlen26 : (IndicatorCalculator.windowSlice closes i 26).length = 26 :=
      windowSlice_length (by omega) hilen (by norm_num)
    have hsz := macd_of_26 hlen26
      (show IndicatorCalculator.calculate_macd _ = some m by
        rw [← hmacd]; exact hm')
    rw [hm', Option.getD_some]
    exact hsz
  · rw [if_neg h25] at hmacd
    rw [hmacd] at hm
    cases hm

/-- C10: for every enriched record produced by the indicator engine
(sequential `calculate_all_indicators` or parallel `calculate_parallel`),
whenever the MACD indicator is present its signal component is `0` and its
histogram equals its DIF component: the engine always passes exactly a
26-close trailing window to `calculate_macd`, whose re-derived DIF series
then has exactly one sample — fewer than the 9 needed for a nonzero
signal.  (Records are addressed by index; `defaultEnhanced` and
`macdProbe` are out-of-range/absent fallbacks that cannot satisfy the
hypothesis or conclusion.) -/
theorem c10_engine_macd_signal_zero :
    (∀ (wins : List Nat) (syms : List String)
        (data : List Proc.TDXDayRecord) (i : Nat),
      (((IndicatorCalculator.calculate_all_indicators wins syms
            data).getD i defaultEnhanced).indicators.macd).isSome = true →
      ((((IndicatorCalculator.calculate_all_indicators wins syms
            data).getD i defaultEnhanced).indicators.macd).getD
          macdProbe).signal = 0 ∧
      ((((IndicatorCalculator.calculate_all_indicators wins syms
            data).getD i defaultEnhanced).indicators.macd).getD
          macdProbe).histogram =
        ((((IndicatorCalculator.calculate_all_indicators wins syms
            data).getD i defaultEnhanced).indicators.macd).getD
          macdProbe).dif) ∧
    (∀ (wins : List Nat) (syms : List String)
        (data : List Proc.TDXDayRecord) (i : Nat),
      (((IndicatorCalculator.calculate_parallel wins syms
            data).getD i defaultEnhanced).indicators.macd).isSome = true →
      ((((IndicatorCalculator.calculate_parallel wins syms
            data).getD i defaultEnhanced).indicators.macd).getD
          macdProbe).signal = 0 ∧
      ((((IndicatorCalculator.calculate_parallel wins syms
            data).getD i defaultEnhanced).indicators.macd).getD
          macdProbe).histogram =
        ((((IndicatorCalculator.calculate_parallel wins syms
            data).getD i defaultEnhanced).indicators.macd).getD
          macdProbe).dif) := by
  constructor
  · intro wins syms data i hm
    by_cases hlt :
        i < (IndicatorCalculator.calculate_all_indicators wins syms
          data).length
    · have hmem : (IndicatorCalculator.calculate_all_indicators wins syms
          data).getD i defaultEnhanced ∈
          IndicatorCalculator.calculate_all_indicators wins syms data := by
        rw [List.getD_eq_getElem _ _ hlt]
        exact List.getElem_mem _
      exact enhanced_macd hmem hm
    · rw [List.getD_eq_default _ _ (by omega)] at hm
      simp [defaultEnhanced, IndicatorCalculator.defaultIndicatorValues]
        at hm
  · intro wins syms data i hm
    by_cases hlt :
        i < (IndicatorCalculator.calculate_parallel wins syms data).length
    · have hmem : (IndicatorCalculator.calculate_parallel wins syms
          data).getD i defaultEnhanced ∈
          IndicatorCalculator.calculate_parallel wins syms data := by
        rw [List.getD_eq_getElem _ _ hlt]
        exact List.getElem_mem _
      have hmem' : (IndicatorCalculator.calculate_parallel wins syms
          data).getD i defaultEnhanced ∈
          IndicatorCalculator.calculate_all_indicators wins syms data :=
        (sortByB_perm IndicatorCalculator.dateSymbolLe
          (IndicatorCalculator.calculate_all_indicators wins syms
            data)).mem_iff.mp hmem
      exact enhanced_macd hmem' hm
    · rw [List.getD_eq_default _ _ (by omega)] at hm
      simp [defaultEnhanced, IndicatorCalculator.defaultIndicatorValues]
        at hm

/-- Witness for `c10_engine_macd_signal_zero`: 26 same-symbol records;
at index 25 the MACD is present in both the sequential and the parallel
output, with signal 0 and histogram equal to DIF. -/
theorem c10_engine_macd_signal_zero_witness :
    ((((IndicatorCalculator.calculate_all_indicators [5, 10, 20, 60]
          ["600000"] c10_data).getD 25 defaultEnhanced).indicators.macd
        ).isSome = true ∧
      (((((IndicatorCalculator.calculate_all_indicators [5, 10, 20, 60]
            ["600000"] c10_data).getD 25 defaultEnhanced).indicators.macd
          ).getD macdProbe).signal = 0 ∧
        ((((IndicatorCalculator.calculate_all_indicators [5, 10, 20, 60]
            ["600000"] c10_data).getD 25 defaultEnhanced).indicators.macd
          ).getD macdProbe).histogram =
        ((((IndicatorCalculator.calculate_all_indicators [5, 10, 20, 60]
            ["600000"] c10_data).getD 25 defaultEnhanced).indicators.macd
          ).getD macdProbe).dif)) ∧
    ((((IndicatorCalculator.calculate_parallel [5, 10, 20, 60]
          ["600000"] c10_data).getD 25 defaultEnhanced).indicators.macd
        ).isSome = true ∧
      (((((IndicatorCalculator.calculate_parallel [5, 10, 20, 60]
            ["600000"] c10_data).getD 25 defaultEnhanced).indicators.macd
          ).getD macdProbe).signal = 0 ∧
        ((((IndicatorCalculator.calculate_parallel [5, 10, 20, 60]
            ["600000"] c10_data).getD 25 defaultEnhanced).indicators.macd
          ).getD macdProbe).histogram =
        ((((IndicatorCalculator.calculate_parallel [5, 10, 20, 60]
            ["600000"] c10_data).getD 25 defaultEnhanced).indicators.macd
          ).getD macdProbe).dif)) :=
  ⟨⟨by rfl, c10_engine_macd_signal_zero.1 [5, 10, 20, 60] ["600000"]
      c10_data 25 (by rfl)⟩,
   ⟨by rfl, c10_engine_macd_signal_zero.2 [5, 10, 20, 60] ["600000"]
      c10_data 25 (by rfl)⟩⟩
